import Mathlib

/-!
Verification development for the LCL command-catalog application.

The model below is a shallow embedding of the ingestion / search / grouping
logic of the repository:

* `src/app/app.py` — `_apply_filters_and_render` (tiered search),
  `_extract_options_text` (tier-2 search text), `_format_options`
  (display rendering), `_get_all_commands_by_category` (category grouper);
* `src/app/yamlio.py` — `load_all_commands` (catalog load);
* `src/tui/app.py` — `load_all_commands`, `_attach_meta`,
  `_find_commands_base` (the second loader).

Text is modelled as `List Char` (`Str`); Python values parsed from YAML are
modelled by the inductive `YVal`; a catalog record (a Python dict) is
modelled by `Doc`, whose fields are `Option YVal` (`none` = key absent from
the dict).  Python string operations (`strip`, `lower`, `split`, `in`,
`replace`) are modelled character-exactly for ASCII text.
-/

namespace LCL

/-- Text as a list of characters (a Python `str`). -/
abbrev Str := List Char

/-- Shorthand turning a Lean string literal into the `Str` model. -/
def toL (s : String) : Str := s.toList

/-- Python whitespace for `str.strip()` / `str.split()`:
space, tab, newline, carriage return, vertical tab, form feed. -/
def pySpace (c : Char) : Bool :=
  c == ' ' || c == '\t' || c == '\n' || c == '\r' || c == Char.ofNat 11 || c == Char.ofNat 12

/-- Python `str.strip()`: drop whitespace from both ends. -/
def stripL (s : Str) : Str :=
  ((s.dropWhile pySpace).reverse.dropWhile pySpace).reverse

/-- ASCII model of lower-casing one character (Python `str.lower` on the
ASCII range: `A`-`Z` maps to `a`-`z`, everything else is unchanged). -/
def lowerChar (c : Char) : Char :=
  if 65 ≤ c.toNat ∧ c.toNat ≤ 90 then Char.ofNat (c.toNat + 32) else c

/-- Python `str.lower()` (ASCII model). -/
def lowerStr (s : Str) : Str := s.map lowerChar

/-- Python `str.split()` with no argument: split on runs of whitespace,
producing no empty words. -/
def splitWs : Str → List Str
  | [] => []
  | c :: rest =>
    let ws := splitWs rest
    if pySpace c then ws
    else
      match rest with
      | [] => [[c]]
      | c2 :: _ =>
        if pySpace c2 then [c] :: ws
        else
          match ws with
          | [] => [[c]]
          | w :: ws2 => (c :: w) :: ws2

/-- Boolean prefix test on character lists. -/
def isPrefixL : Str → Str → Bool
  | [], _ => true
  | _ :: _, [] => false
  | a :: as, b :: bs => a == b && isPrefixL as bs

/-- Python substring test `needle in haystack`. -/
def isSubstrL (needle : Str) : Str → Bool
  | [] => needle.isEmpty
  | c :: rest => isPrefixL needle (c :: rest) || isSubstrL needle rest

/-- Join a list of strings with a single separator character. -/
def joinSep (sep : Str) : List Str → Str
  | [] => []
  | [s] => s
  | s :: rest => s ++ sep ++ joinSep sep rest

/-- Python lexicographic string comparison `a <= b` (by code point). -/
def lexLe : Str → Str → Bool
  | [], _ => true
  | _ :: _, [] => false
  | a :: as, b :: bs =>
    if a.toNat < b.toNat then true
    else if b.toNat < a.toNat then false
    else lexLe as bs

/-- A Python value as produced by `yaml.safe_load`: `None`, a string, a
list, a dict (association list of string keys, in insertion order), or any
other object (carrying its truthiness and its `str()` rendering). -/
inductive YVal where
  | vnull
  | vstr (s : Str)
  | vlist (l : List YVal)
  | vdict (ps : List (Str × YVal))
  | vother (truthy : Bool) (rendering : Str)

/-- Python truthiness of a `YVal` (`if not options: ...`). -/
def pyTruthy : YVal → Bool
  | .vnull => false
  | .vstr s => !s.isEmpty
  | .vlist l => !l.isEmpty
  | .vdict ps => !ps.isEmpty
  | .vother t _ => t

/-- Depth-bounded model of Python `repr()`: strings are quoted, lists and
dicts are bracketed with comma-separated entries.  The fuel argument only
bounds nesting depth; every value of depth below the fuel is rendered. -/
def pyReprD : Nat → YVal → Str
  | _, .vnull => toL "None"
  | _, .vstr s => Char.ofNat 39 :: (s ++ [Char.ofNat 39])
  | _, .vother _ r => r
  | 0, .vlist _ => []
  | 0, .vdict _ => []
  | fuel + 1, .vlist l => '[' :: (joinSep (toL ", ") (l.map (pyReprD fuel)) ++ [']'])
  | fuel + 1, .vdict ps =>
    Char.ofNat 123 ::
      (joinSep (toL ", ")
        (ps.map (fun p => (Char.ofNat 39 :: (p.1 ++ [Char.ofNat 39, ':', ' '])) ++ pyReprD fuel p.2))
        ++ [Char.ofNat 125])

/-- Python `str()` of a value (depth-bounded for nested lists/dicts, which
never occur in the properties below). -/
def pyStr : YVal → Str
  | .vstr s => s
  | v => pyReprD 1000 v

/-- Lookup in an association list modelling `dict.get` (dict keys are
unique in Python, so the first hit is the value). -/
def lookupY : List (Str × YVal) → Str → Option YVal
  | [], _ => none
  | (k, v) :: rest, key => if k == key then some v else lookupY rest key

/-- A catalog record: the Python dict held in `self.docs`, restricted to
the keys the program reads.  `none` models an absent key. -/
structure Doc where
  name : Option YVal := none
  category : Option YVal := none
  description : Option YVal := none
  usage : Option YVal := none
  syntaxField : Option YVal := none
  examples : Option YVal := none
  options : Option YVal := none
  tags : Option YVal := none
  sourceFile : Option Str := none
  categoryDir : Option Str := none

/-- Python `doc.get(key, default)`. -/
def dGet (field : Option YVal) (dflt : YVal) : YVal := field.getD dflt

/-- The corrupted-serialization marker with a trailing space (the literal
checked first by `_extract_options_text`). -/
def marker1 : Str := [Char.ofNat 39, ']', ':', ' ']

/-- The corrupted-serialization marker (the second, shorter literal; every
string containing `marker1` also contains `marker2`). -/
def marker2 : Str := [Char.ofNat 39, ']', ':']

/-- The test `"']: " in s or "']:" in s` of `_extract_options_text`. -/
def hasMarker (s : Str) : Bool := isSubstrL marker1 s || isSubstrL marker2 s

/-- One candidate search-text part, as processed throughout
`_extract_options_text`: strip, drop if empty or marked as corrupted,
otherwise contribute the lower-cased text. -/
def cleanPart (s : Str) : List Str :=
  if !(stripL s).isEmpty && !hasMarker (stripL s) then [lowerStr (stripL s)] else []

/-- Search-text parts of the `flag` value of one option dict
(`_extract_options_text`, list-of-dicts branch): a list of flags is
cleaned item by item, anything else goes through `str()` and is cleaned. -/
def flagParts : YVal → List Str
  | .vlist fs => fs.flatMap (fun f => cleanPart (pyStr f))
  | f => cleanPart (pyStr f)

/-- Search-text parts contributed by one entry of an options list
(`_extract_options_text`): a dict contributes its cleaned `flag` and, when
truthy, its cleaned `explains`; a string is cleaned directly; any other
entry goes through `str()` and is cleaned. -/
def optEntryParts (o : YVal) : List Str :=
  match o with
  | .vdict ps =>
    let flag := (lookupY ps (toL "flag")).getD (.vstr [])
    let explains := (lookupY ps (toL "explains")).getD (.vstr [])
    flagParts flag ++ (if pyTruthy explains then cleanPart (pyStr explains) else [])
  | .vstr s => cleanPart s
  | v => cleanPart (pyStr v)

/-- Search-text parts contributed by one key/value pair of an options dict
(`_extract_options_text`, dict branch): the cleaned key, plus the cleaned
value when the value is a string. -/
def dictPairParts (p : Str × YVal) : List Str :=
  cleanPart p.1 ++ (match p.2 with | .vstr s => cleanPart s | _ => [])

/-- The list of parts joined by `_extract_options_text` for a given
`options` value: empty for a falsy value, per-entry parts for a list,
per-pair parts for a dict, and the cleaned `str()` of anything else. -/
def optionTextParts (options : YVal) : List Str :=
  if !pyTruthy options then []
  else
    match options with
    | .vlist opts => opts.flatMap optEntryParts
    | .vdict ps => ps.flatMap dictPairParts
    | v => cleanPart (pyStr v)

/-- `_extract_options_text(doc)`: the tier-2 searchable text derived from
`doc.get("options", [])`, parts joined by single spaces. -/
def extractOptionsText (d : Doc) : Str :=
  joinSep [' '] (optionTextParts (dGet d.options (.vlist [])))

/-- `str(doc.get("name", "")).lower()` as computed by
`_apply_filters_and_render`. -/
def nameStr (d : Doc) : Str := lowerStr (pyStr (dGet d.name (.vstr [])))

/-- `str(doc.get("category", ""))` (the raw category text). -/
def categoryRawStr (d : Doc) : Str := pyStr (dGet d.category (.vstr []))

/-- `category_raw.lower()`. -/
def categoryStr (d : Doc) : Str := lowerStr (categoryRawStr d)

/-- `category.replace("_", " ")`: the lower-cased category with
underscores replaced by spaces. -/
def categoryNormStr (d : Doc) : Str :=
  (categoryStr d).map (fun c => if c == '_' then ' ' else c)

/-- The tier-1 test of `_apply_filters_and_render`:
`search_text == name`. -/
def exactMatch (searchText : Str) (d : Doc) : Bool :=
  searchText == nameStr d

/-- The tier-2 test of `_apply_filters_and_render`: some whitespace-split
word of the search text is a substring of the name, the category, the
normalized category or the options text; plus the special case sending
"networking" to categories containing "network". -/
def tier2Match (searchText : Str) (d : Doc) : Bool :=
  let name := nameStr d
  let category := categoryStr d
  let categoryNormalized := categoryNormStr d
  let optionsText := extractOptionsText d
  let searchWords := splitWs searchText
  let m := searchWords.any (fun w =>
    isSubstrL w name || isSubstrL w category ||
    isSubstrL w categoryNormalized || isSubstrL w optionsText)
  m || (isSubstrL (toL "networking") searchText &&
    (isSubstrL (toL "network") category || isSubstrL (toL "network") categoryNormalized))

/-- The classification loop of `_apply_filters_and_render`: one pass over
the snapshot appending each doc to `exact_matches` (and skipping tier 2)
when tier 1 hits, else to `partial_matches` when tier 2 hits. -/
def classifyDocs (searchText : Str) : List Doc → List Doc × List Doc
  | [] => ([], [])
  | d :: rest =>
    let ep := classifyDocs searchText rest
    if exactMatch searchText d then (d :: ep.1, ep.2)
    else if tier2Match searchText d then (ep.1, d :: ep.2)
    else ep

/-- `search_input.value.strip().lower()`: the normalized query. -/
def searchTextOf (q : Str) : Str := lowerStr (stripL q)

/-- The category key used by `_get_all_commands_by_category`:
`doc.get("category", "Unknown")`. -/
def catKeyVal (d : Doc) : YVal := dGet d.category (.vstr (toL "Unknown"))

/-- A doc the grouper handles without raising: its category key and its
`name` value (default `""`) are both strings, so the key is hashable and
sortable against the other keys and `.lower()` applies to the name.  Any
other shape makes `_get_all_commands_by_category` raise internally, which
its `except` turns into the fallback `self.docs.copy()`. -/
def groupable (d : Doc) : Bool :=
  (match catKeyVal d with | .vstr _ => true | _ => false) &&
  (match dGet d.name (.vstr []) with | .vstr _ => true | _ => false)

/-- The category key as text (meaningful on `groupable` docs). -/
def catKeyStr (d : Doc) : Str :=
  match catKeyVal d with
  | .vstr s => s
  | _ => []

/-- The in-bucket sort key of `_get_all_commands_by_category`:
`x.get("name", "").lower()`. -/
def sortNameKey (d : Doc) : Str :=
  lowerStr (match dGet d.name (.vstr []) with | .vstr s => s | _ => [])

/-- The bucket keys of `category_groups`, in first-seen order (Python dict
insertion order), without duplicates. -/
def catKeys : List Doc → List Str
  | [] => []
  | d :: rest => catKeyStr d :: (catKeys rest).filter (fun k => !(k == catKeyStr d))

/-- The Python `<=` on strings, as a proposition (used as the sort order;
`sorted` is a stable sort, so any stable sort models it). -/
def keyLe (a b : Str) : Prop := lexLe a b = true

/-- The in-bucket order of `_get_all_commands_by_category`: compare the
lower-cased names. -/
def nameLe (a b : Doc) : Prop := lexLe (sortNameKey a) (sortNameKey b) = true

instance : DecidableRel keyLe := fun a b => instDecidableEqBool (lexLe a b) true

instance : DecidableRel nameLe := fun a b =>
  instDecidableEqBool (lexLe (sortNameKey a) (sortNameKey b)) true

/-- `_get_all_commands_by_category(docs)`: bucket by category key, sort
the keys (Python string order, by code point), sort each bucket by
lower-cased name, and concatenate; any shape error inside the `try` makes
the `except` branch return the snapshot unchanged. -/
def getAllCommandsByCategory (docs : List Doc) : List Doc :=
  if docs.all groupable then
    (List.insertionSort keyLe (catKeys docs)).flatMap
      (fun k => List.insertionSort nameLe (docs.filter (fun d => catKeyStr d == k)))
  else docs

/-- The filtering logic of `_apply_filters_and_render`: an empty
normalized query browses by category; otherwise tier-1 matches win
outright, and only when there is none does the tier-2 list, capped at 50,
become the result. -/
def applyFilters (q : Str) (docs : List Doc) : List Doc :=
  let searchText := searchTextOf q
  if searchText.isEmpty then getAllCommandsByCategory docs
  else
    let ep := classifyDocs searchText docs
    if !ep.1.isEmpty then ep.1 else ep.2.take 50

/-- The lines built by `_format_options` for one entry of an options list:
a dict renders its `flag` (a list is comma-joined) and appends
`": explains"` when `explains` is truthy; a plain string renders itself;
anything else is skipped. -/
def formatOptionLine (o : YVal) : List Str :=
  match o with
  | .vdict ps =>
    let flag := (lookupY ps (toL "flag")).getD (.vstr [])
    let explains := (lookupY ps (toL "explains")).getD (.vstr [])
    let flagStr :=
      match flag with
      | .vlist fs => joinSep (toL ", ") (fs.map pyStr)
      | f => pyStr f
    if pyTruthy explains then [flagStr ++ toL ": " ++ pyStr explains] else [flagStr]
  | .vstr s => [s]
  | _ => []

/-- `_format_options(options)`: the details-pane text for the options
field.  A falsy value reports no options; a list renders entry by entry; a
dict iterates its keys; a string iterates its characters; a non-iterable
value raises `TypeError`, which the `except` turns into the error text.
Lines are joined by blank lines. -/
def formatOptions (options : YVal) : Str :=
  if !pyTruthy options then toL "No options documented."
  else
    match options with
    | .vlist opts => joinSep (toL "\n\n") (opts.flatMap formatOptionLine)
    | .vdict ps => joinSep (toL "\n\n") (ps.map (fun p => p.1))
    | .vstr s => joinSep (toL "\n\n") (s.map (fun c => [c]))
    | _ => toL "Error formatting options"

/-! ### The catalog loader of `src/app/yamlio.py`

File-system effects are modelled as input data: a file is its name plus
the outcome of opening and parsing it (an exception, or the parsed value);
a category directory is its name plus the outcome of globbing it; the tree
is either missing or a listing outcome.  Both loaders return
`Except Str (List Doc)`, with `.error` exactly where a Python exception
would escape the function. -/

/-- Outcome of `open` + `yaml.safe_load` on one file. -/
inductive FileRes where
  | raises (msg : Str)
  | parsed (v : YVal)

/-- One YAML file of a category directory. -/
structure YFile where
  fileName : Str
  res : FileRes

/-- One category directory: its name and the outcome of listing its YAML
files (the glob calls can raise). -/
structure CatDir where
  dirName : Str
  files : Except Str (List YFile)

/-- The state of the `data/commands` tree as `load_all_commands` of
`src/app/yamlio.py` observes it. -/
inductive AppFS where
  | noDataDir
  | withDataDir (cats : Except Str (List CatDir))

/-- Sort order used for `sorted(category_dirs)` / `sorted(all_yaml_files)`
(paths inside one directory compare by name). -/
def dirLe (a b : CatDir) : Prop := lexLe a.dirName b.dirName = true

instance : DecidableRel dirLe := fun a b =>
  instDecidableEqBool (lexLe a.dirName b.dirName) true

/-- Order on files by file name. -/
def fileLe (a b : YFile) : Prop := lexLe a.fileName b.fileName = true

instance : DecidableRel fileLe := fun a b =>
  instDecidableEqBool (lexLe a.fileName b.fileName) true

/-- Record normalization of `load_all_commands` in `src/app/yamlio.py`:
a falsy or non-dict parse is skipped; a record whose `name` is missing or
falsy is skipped (logged `Missing 'name' field`); a missing or falsy
`category` is replaced by the directory name; `_source_file` and
`_category_dir` metadata are attached. -/
def appProcessRecord (categoryName : Str) (sourceFile : Str) (data : YVal) : Option Doc :=
  match data with
  | .vdict ps =>
    if ps.isEmpty then none
    else if !pyTruthy ((lookupY ps (toL "name")).getD .vnull) then none
    else
      some
        { name := lookupY ps (toL "name")
          category :=
            match lookupY ps (toL "category") with
            | some v => if pyTruthy v then some v else some (.vstr categoryName)
            | none => some (.vstr categoryName)
          description := lookupY ps (toL "description")
          usage := lookupY ps (toL "usage")
          syntaxField := lookupY ps (toL "syntax")
          examples := lookupY ps (toL "examples")
          options := lookupY ps (toL "options")
          tags := lookupY ps (toL "tags")
          sourceFile := some sourceFile
          categoryDir := some categoryName }
  | _ => none

/-- The per-category body of `load_all_commands` in `src/app/yamlio.py`:
a failed listing skips the category, a failed file read/parse skips the
file, and surviving records are normalized in sorted file order. -/
def appLoadCatDir (cd : CatDir) : List Doc :=
  match cd.files with
  | .error _ => []
  | .ok fs =>
    (List.insertionSort fileLe fs).flatMap (fun f =>
      match f.res with
      | .raises _ => []
      | .parsed v => (appProcessRecord cd.dirName f.fileName v).toList)

/-- `load_all_commands` of `src/app/yamlio.py`: a missing data directory
or an unlistable one yields the empty catalog; otherwise category
directories are processed in sorted order.  Every exception site of the
source sits inside a `try`/`except`, so the result is always `.ok`. -/
def appLoadAllCommands (fs : AppFS) : Except Str (List Doc) :=
  match fs with
  | .noDataDir => .ok []
  | .withDataDir (.error _) => .ok []
  | .withDataDir (.ok cds) =>
    if cds.isEmpty then .ok []
    else .ok ((List.insertionSort dirLe cds).flatMap appLoadCatDir)

/-! ### The catalog loader of `src/tui/app.py` -/

/-- Outcome of `_load_yaml_file` preceded by `fp.read_text`: the read can
raise (it is not inside the function's `try`), while an empty or
unparsable file yields `None` and is skipped. -/
inductive TuiFileRes where
  | readRaises (msg : Str)
  | content (v : Option YVal)

/-- One YAML file under the commands base, with the category inferred from
its first path component (`_infer_category_from_path`; `STRICT_CATEGORIES`
is `False` in this module, so the component is used as-is). -/
structure TuiFile where
  fileName : Str
  stem : Str
  catFromPath : Str
  res : TuiFileRes

/-- The file system as `load_all_commands` of `src/tui/app.py` observes
it: `none` when no candidate `data/commands` directory exists (then
`_find_commands_base` raises `RuntimeError`), else the YAML files found. -/
structure TuiFS where
  base : Option (List TuiFile)

/-- `_attach_meta` of `src/tui/app.py`: `setdefault` the category (only a
missing key is replaced — a falsy value is kept), default `_source_path`,
and replace a missing or falsy `name` by the filename stem. -/
def tuiAttachMeta (ps : List (Str × YVal)) (cat : Str) (stem : Str) (src : Str) : Doc :=
  { name :=
      match lookupY ps (toL "name") with
      | some v => if pyTruthy v then some v else some (.vstr stem)
      | none => some (.vstr stem)
    category :=
      match lookupY ps (toL "category") with
      | some v => some v
      | none => some (.vstr cat)
    description := lookupY ps (toL "description")
    usage := lookupY ps (toL "usage")
    syntaxField := lookupY ps (toL "syntax")
    examples := lookupY ps (toL "examples")
    options := lookupY ps (toL "options")
    tags := lookupY ps (toL "tags")
    sourceFile := some src
    categoryDir := some cat }

/-- Documents contributed by one file in `load_all_commands` of
`src/tui/app.py`: a raising read propagates; a skipped parse contributes
nothing; a dict contributes one Document, a list its dict items, anything
else contributes nothing (warned and skipped). -/
def tuiProcessFile (f : TuiFile) : Except Str (List Doc) :=
  match f.res with
  | .readRaises msg => .error msg
  | .content none => .ok []
  | .content (some v) =>
    match v with
    | .vdict ps => .ok [tuiAttachMeta ps f.catFromPath f.stem f.fileName]
    | .vlist items =>
      .ok (items.filterMap (fun it =>
        match it with
        | .vdict ps => some (tuiAttachMeta ps f.catFromPath f.stem f.fileName)
        | _ => none))
    | _ => .ok []

/-- The file loop of `load_all_commands` in `src/tui/app.py`: files in
order, stopping with the exception of the first raising read. -/
def tuiLoadFiles : List TuiFile → Except Str (List Doc)
  | [] => .ok []
  | f :: rest =>
    match tuiProcessFile f with
    | .error e => .error e
    | .ok ds =>
      match tuiLoadFiles rest with
      | .error e => .error e
      | .ok more => .ok (ds ++ more)

/-- `load_all_commands` of `src/tui/app.py`: `_find_commands_base` raises
`RuntimeError` when no commands directory can be located; otherwise the
files are processed in turn (a raising `read_text` propagates). -/
def tuiLoadAllCommands (fs : TuiFS) : Except Str (List Doc) :=
  match fs.base with
  | none => .error (toL "Could not locate a data/commands or commands directory.")
  | some files => tuiLoadFiles files

/-! ### Concrete snapshots used by witnesses and counterexamples -/

/-- A document named `ls`. -/
def dLs : Doc :=
  { name := some (.vstr (toL "ls")), category := some (.vstr (toL "File_Mgmt")) }

/-- A document named `lsof` (its name contains `ls` as a proper substring,
so it is a tier-2 match for the query `ls` but not a tier-1 match). -/
def dLsof : Doc :=
  { name := some (.vstr (toL "lsof")), category := some (.vstr (toL "File_Mgmt")) }

/-- A document named `x`. -/
def dC2x : Doc :=
  { name := some (.vstr (toL "x")), category := some (.vstr (toL "c")) }

/-- A document whose name ` x` carries a leading space. -/
def dC2y : Doc :=
  { name := some (.vstr (toL " x")), category := some (.vstr (toL "c")) }

/-- Snapshot for the exact-match-totality counterexample. -/
def exC2docs : List Doc := [dC2x, dC2y]

/-- Documents `cmda`, `cmdaa`, ...: every one is a tier-2 match for the
query `cmd` and none is an exact match. -/
def exC3doc (i : Nat) : Doc :=
  { name := some (.vstr (toL "cmd" ++ List.replicate i 'a'))
    category := some (.vstr (toL "Text_Processing")) }

/-- A snapshot of 60 tier-2 matches for the query `cmd`. -/
def exC3docs : List Doc := (List.range 60).map (fun i => exC3doc (i + 1))

/-- The relation "these documents agree on every field the search filter
reads": equal `name`, `category` and `options` values (the `description`,
`usage`, `syntax` and `examples` fields may differ arbitrarily). -/
def searchView (a b : Doc) : Prop :=
  a.name = b.name ∧ a.category = b.category ∧ a.options = b.options

/-- Case-insensitive string order (what the claim asserts for the
grouper's bucket keys). -/
def ciKeyLe (a b : Str) : Prop := lexLe (lowerStr a) (lowerStr b) = true

instance : DecidableRel ciKeyLe := fun a b =>
  instDecidableEqBool (lexLe (lowerStr a) (lowerStr b)) true

/-- The grouper as the claim states it (written from the claim's words,
for comparison with `getAllCommandsByCategory`): bucket keys sorted
case-insensitively, names inside each bucket sorted case-insensitively,
buckets concatenated in sorted-key order. -/
def claimOrderCI (docs : List Doc) : List Doc :=
  (List.insertionSort ciKeyLe (catKeys docs)).flatMap
    (fun k => List.insertionSort nameLe (docs.filter (fun d => catKeyStr d == k)))

/-- A document in lower-case category `a`. -/
def dCatLowerA : Doc :=
  { name := some (.vstr (toL "n1")), category := some (.vstr (toL "a")) }

/-- A document in upper-case category `B`. -/
def dCatUpperB : Doc :=
  { name := some (.vstr (toL "n2")), category := some (.vstr (toL "B")) }

/-- Snapshot whose category keys order differently under case-sensitive
(`B` before `a`) and case-insensitive (`a` before `B`) sorting. -/
def exC5docs : List Doc := [dCatLowerA, dCatUpperB]

/-- An options field holding the single mapping
`{"-v": "verbose output"}`. -/
def optionsMappingV : YVal := .vdict [(toL "-v", .vstr (toL "verbose output"))]

/-- An options field holding `[{"flags": ["-v"], "explanation":
"verbose output"}]` — the key spellings used by the claim's scenario. -/
def optionsSpecListV : YVal :=
  .vlist [.vdict [(toL "flags", .vlist [.vstr (toL "-v")]),
                  (toL "explanation", .vstr (toL "verbose output"))]]

/-- An options field holding `[{"flag": ["-v"], "explains":
"verbose output"}]` — the key spellings the code actually reads. -/
def optionsCodeListV : YVal :=
  .vlist [.vdict [(toL "flag", .vlist [.vstr (toL "-v")]),
                  (toL "explains", .vstr (toL "verbose output"))]]

/-- A document with the mapping-shaped options field. -/
def dOptMapping : Doc :=
  { name := some (.vstr (toL "cmda")), category := some (.vstr (toL "Misc"))
    options := some optionsMappingV }

/-- A document with the list-shaped options field spelled as in the
claim's scenario (`flags`/`explanation`). -/
def dOptSpecList : Doc :=
  { name := some (.vstr (toL "cmdb")), category := some (.vstr (toL "Misc"))
    options := some optionsSpecListV }

/-- A document with the list-shaped options field spelled as the code
reads it (`flag`/`explains`). -/
def dOptCodeList : Doc :=
  { name := some (.vstr (toL "cmdc")), category := some (.vstr (toL "Misc"))
    options := some optionsCodeListV }

/-- A flag text carrying the corrupted-serialization marker. -/
def corruptedFlag : Str := toL "-a" ++ marker2 ++ toL " use archive file"

/-- An explanation text carrying the corrupted-serialization marker. -/
def corruptedExplains : Str := toL "use archive" ++ marker2 ++ toL " x"

/-- An options list whose single entry is corrupted in both fields. -/
def corruptedOptionsV : YVal :=
  .vlist [.vdict [(toL "flag", .vstr corruptedFlag),
                  (toL "explains", .vstr corruptedExplains)]]

/-- A YAML record with a description but no `name` key. -/
def rsyncRecord : YVal := .vdict [(toL "description", .vstr (toL "sync files"))]

/-- The file `rsync.yml` holding `rsyncRecord`, as the app loader sees
it. -/
def rsyncFile : YFile := { fileName := toL "rsync.yml", res := .parsed rsyncRecord }

/-- A category directory containing only `rsync.yml`. -/
def rsyncCatDir : CatDir :=
  { dirName := toL "Networking_Tools", files := .ok [rsyncFile] }

/-- The file `rsync.yml` holding `rsyncRecord`, as the tui loader sees
it. -/
def rsyncTuiFile : TuiFile :=
  { fileName := toL "rsync.yml", stem := toL "rsync"
    catFromPath := toL "Networking_Tools", res := .content (some rsyncRecord) }

/-- A character outside both letter ranges (every character of the
corrupted-serialization marker qualifies). -/
def nonLetterCode (x : Char) : Prop :=
  x.toNat < 65 ∨ (90 < x.toNat ∧ x.toNat < 97)

instance (x : Char) : Decidable (nonLetterCode x) :=
  inferInstanceAs (Decidable (_ ∨ _))

/-- A document named `ls` with a description (for the
search-independence witness). -/
def dView1 : Doc :=
  { name := some (.vstr (toL "ls")), category := some (.vstr (toL "File_Mgmt"))
    description := some (.vstr (toL "list directory contents")) }

/-- A document agreeing with `dView1` on name, category and options, with
different description, usage, syntax and examples fields. -/
def dView2 : Doc :=
  { name := some (.vstr (toL "ls")), category := some (.vstr (toL "File_Mgmt"))
    description := some (.vstr (toL "something else entirely"))
    usage := some (.vstr (toL "ls [OPTION]..."))
    syntaxField := some (.vstr (toL "ls -la"))
    examples := some (.vlist [.vstr (toL "ls -la /tmp")]) }

end LCL

namespace LCL

/-! ### Basic lemmas about the classification pass -/

/-- The one-pass classification loop is the pair of order-preserving
filters: the tier-1 matches, and the tier-2 matches that are not tier-1
matches (the loop `continue`s past an exact match). -/
theorem classifyDocs_eq (s : Str) (docs : List Doc) :
    classifyDocs s docs =
      (docs.filter (exactMatch s),
        docs.filter (fun d => !exactMatch s d && tier2Match s d)) := by
  induction docs with
  | nil => rfl
  | cons d rest ih =>
    simp only [classifyDocs, ih, List.filter_cons]
    by_cases he : exactMatch s d
    · simp [he]
    · by_cases ht : tier2Match s d <;>
        simp [he, ht, Bool.not_eq_true, eq_false_of_ne_true]

/-- With a non-empty normalized query and at least one tier-1 match, the
result is exactly the tier-1 filter. -/
theorem applyFilters_exact (q : Str) (docs : List Doc)
    (h1 : searchTextOf q ≠ [])
    (h2 : docs.filter (exactMatch (searchTextOf q)) ≠ []) :
    applyFilters q docs = docs.filter (exactMatch (searchTextOf q)) := by
  simp only [applyFilters, classifyDocs_eq]
  rw [if_neg, if_pos]
  · simpa using h2
  · simpa using h1

/-- With a non-empty normalized query and no tier-1 match, the result is
the tier-2 filter truncated to 50 entries. -/
theorem applyFilters_partial (q : Str) (docs : List Doc)
    (h1 : searchTextOf q ≠ [])
    (h2 : docs.filter (exactMatch (searchTextOf q)) = []) :
    applyFilters q docs =
      (docs.filter
        (fun d => !exactMatch (searchTextOf q) d && tier2Match (searchTextOf q) d)).take 50 := by
  simp only [applyFilters, classifyDocs_eq]
  rw [if_neg, if_neg]
  · simpa using h2
  · simpa using h1

/-! ### C1 — tier-1 exclusivity -/

/-- C1: for every snapshot (whose documents, per the §3 invariant, have
non-empty names) and every query whose normalized form equals the
case-folded name of at least one document, the result is exactly the
order-preserving filter of the tier-1 matches — full, in snapshot order,
with no tier-2 entries and no 50-entry cap. -/
theorem tier1_overrides_tier2 (q : Str) (docs : List Doc)
    (hwf : ∀ d ∈ docs, nameStr d ≠ [])
    (hex : ∃ d ∈ docs, nameStr d = searchTextOf q) :
    applyFilters q docs = docs.filter (exactMatch (searchTextOf q)) := by
  obtain ⟨d, hd, hname⟩ := hex
  have h1 : searchTextOf q ≠ [] := hname ▸ hwf d hd
  apply applyFilters_exact q docs h1
  intro hnil
  have hmem : d ∈ docs.filter (exactMatch (searchTextOf q)) :=
    List.mem_filter.mpr ⟨hd, by simp [exactMatch, hname]⟩
  simp [hnil] at hmem

/-- Witness for C1 at the query `" LS "` over the snapshot
`[ls, lsof]`: `lsof` is a tier-2 match, yet the result is the tier-1
filter, which is `[ls]`. -/
theorem tier1_overrides_tier2_witness :
    (∀ d ∈ [dLs, dLsof], nameStr d ≠ []) ∧
    (∃ d ∈ [dLs, dLsof], nameStr d = searchTextOf (toL " LS ")) ∧
    tier2Match (searchTextOf (toL " LS ")) dLsof = true ∧
    applyFilters (toL " LS ") [dLs, dLsof] =
      [dLs, dLsof].filter (exactMatch (searchTextOf (toL " LS "))) ∧
    [dLs, dLsof].filter (exactMatch (searchTextOf (toL " LS "))) = [dLs] :=
  ⟨by decide, by decide, by decide,
    tier1_overrides_tier2 _ _ (by decide) (by decide), by rfl⟩

/-! ### C2 — exact-match totality (corrected) -/

/-- C2 fails as stated: `dC2y` is in the snapshot, but searching its own
name `" x"` does not return it — the query normalizes to `"x"`, which is
an exact match for the other document `dC2x`, and the tier-1 override
discards `dC2y` entirely. -/
theorem exact_totality_fails_on_padded_name :
    dC2y ∈ exC2docs ∧ ¬ dC2y ∈ applyFilters (toL " x") exC2docs := by
  refine ⟨by simp [exC2docs], fun h => ?_⟩
  rw [show applyFilters (toL " x") exC2docs = [dC2x] from rfl] at h
  have h2 := List.mem_singleton.mp h
  have h3 := congrArg Doc.name h2
  simp only [dC2y, dC2x, Option.some.injEq, YVal.vstr.injEq] at h3
  exact absurd h3 (by decide)

/-- C2 amended: for every document whose name is a string without
surrounding whitespace and non-empty, searching that name includes the
document; when it is the only tier-1 match for that query (names compared
case-insensitively), the result is exactly that one document. -/
theorem exact_totality_for_trimmed_names (docs : List Doc) (d : Doc) (s : Str)
    (hd : d ∈ docs) (hname : d.name = some (.vstr s))
    (hstrip : stripL s = s) (hne : s ≠ []) :
    d ∈ applyFilters s docs ∧
      ((docs.filter (exactMatch (searchTextOf s))).length = 1 →
        applyFilters s docs = [d]) := by
  have hns : nameStr d = lowerStr s := by simp [nameStr, dGet, hname, pyStr]
  have hst : searchTextOf s = lowerStr s := by simp [searchTextOf, hstrip]
  have hne2 : searchTextOf s ≠ [] := by
    rw [hst]
    simpa [lowerStr] using hne
  have hmem : d ∈ docs.filter (exactMatch (searchTextOf s)) :=
    List.mem_filter.mpr ⟨hd, by simp [exactMatch, hst, hns]⟩
  have heq : applyFilters s docs = docs.filter (exactMatch (searchTextOf s)) := by
    refine applyFilters_exact s docs hne2 (fun hnil => ?_)
    simp [hnil] at hmem
  refine ⟨heq ▸ hmem, fun hlen => ?_⟩
  rw [heq]
  obtain ⟨a, ha⟩ := List.length_eq_one.mp hlen
  rw [ha] at hmem ⊢
  rw [List.mem_singleton.mp hmem]

/-- Witness for the amended C2: searching `"ls"` over `[ls, lsof]`
includes and indeed returns exactly the `ls` document. -/
theorem exact_totality_for_trimmed_names_witness :
    dLs ∈ [dLs, dLsof] ∧
    dLs ∈ applyFilters (toL "ls") [dLs, dLsof] ∧
    applyFilters (toL "ls") [dLs, dLsof] = [dLs] := by
  have h := exact_totality_for_trimmed_names [dLs, dLsof] dLs (toL "ls")
    (List.mem_cons_self _ _) rfl (by decide) (by decide)
  exact ⟨List.mem_cons_self _ _, h.1, h.2 (by decide)⟩

/-! ### C3 — tier-2 cap -/

/-- C3: with a non-empty normalized query and no tier-1 match, the result
is the tier-2 filter in snapshot order truncated to its first 50 entries;
in particular, when more than 50 documents match, exactly 50 are
returned. -/
theorem tier2_cap_first50 (q : Str) (docs : List Doc)
    (h1 : searchTextOf q ≠ [])
    (h2 : ∀ d ∈ docs, exactMatch (searchTextOf q) d = false) :
    applyFilters q docs = (docs.filter (tier2Match (searchTextOf q))).take 50 ∧
      (50 < (docs.filter (tier2Match (searchTextOf q))).length →
        (applyFilters q docs).length = 50) := by
  have hnil : docs.filter (exactMatch (searchTextOf q)) = [] :=
    List.filter_eq_nil_iff.mpr (fun d hd => by simp [h2 d hd])
  have hcongr :
      docs.filter
        (fun d => !exactMatch (searchTextOf q) d && tier2Match (searchTextOf q) d)
      = docs.filter (tier2Match (searchTextOf q)) :=
    List.filter_congr (fun d hd => by simp [h2 d hd])
  have heq := applyFilters_partial q docs h1 hnil
  rw [hcongr] at heq
  refine ⟨heq, fun hlen => ?_⟩
  rw [heq, List.length_take]
  omega

/-- Witness for C3: the 60-document snapshot `exC3docs` has no exact match
for `cmd`, more than 50 tier-2 matches, and the result is the first 50 in
snapshot order. -/
theorem tier2_cap_first50_witness :
    searchTextOf (toL "cmd") ≠ [] ∧
    (∀ d ∈ exC3docs, exactMatch (searchTextOf (toL "cmd")) d = false) ∧
    50 < (exC3docs.filter (tier2Match (searchTextOf (toL "cmd")))).length ∧
    applyFilters (toL "cmd") exC3docs =
      (exC3docs.filter (tier2Match (searchTextOf (toL "cmd")))).take 50 ∧
    (applyFilters (toL "cmd") exC3docs).length = 50 := by
  have h := tier2_cap_first50 (toL "cmd") exC3docs (by decide) (by decide)
  exact ⟨by decide, by decide, by decide, h.1, h.2 (by decide)⟩

/-! ### C10 — the filter reads only name, category and options -/

/-- The tier-1 test only reads the `name` field. -/
theorem exactMatch_congr (s : Str) {a b : Doc} (h : searchView a b) :
    exactMatch s a = exactMatch s b := by
  simp only [exactMatch, nameStr, dGet, h.1]

/-- The tier-2 test only reads the `name`, `category` and `options`
fields. -/
theorem tier2Match_congr (s : Str) {a b : Doc} (h : searchView a b) :
    tier2Match s a = tier2Match s b := by
  simp only [tier2Match, nameStr, categoryStr, categoryRawStr, categoryNormStr,
    extractOptionsText, dGet, h.1, h.2.1, h.2.2]

/-- Filtering with pointwise-agreeing predicates preserves `Forall₂`. -/
theorem forall₂_filter {R : Doc → Doc → Prop} {f g : Doc → Bool}
    (hpq : ∀ (a b : Doc), R a b → f a = g b) :
    ∀ {l1 l2 : List Doc}, List.Forall₂ R l1 l2 →
      List.Forall₂ R (l1.filter f) (l2.filter g) := by
  intro l1 l2 h
  induction h with
  | nil => exact .nil
  | cons hab htl ih =>
    rename_i a b tl1 tl2
    rw [List.filter_cons, List.filter_cons, hpq a b hab]
    by_cases hqb : g b = true
    · rw [if_pos hqb, if_pos hqb]
      exact .cons hab ih
    · rw [if_neg hqb, if_neg hqb]
      exact ih

/-- Truncation preserves `Forall₂`. -/
theorem forall₂_take {α β : Type} {R : α → β → Prop} :
    ∀ (n : Nat) {l1 : List α} {l2 : List β}, List.Forall₂ R l1 l2 →
      List.Forall₂ R (l1.take n) (l2.take n) := by
  intro n l1 l2 h
  induction h generalizing n with
  | nil => simp only [List.take_nil]; exact .nil
  | cons hab htl ih =>
    cases n with
    | zero => exact .nil
    | succ m =>
      simp only [List.take_succ_cons]
      exact .cons hab (ih m)

/-- C10: over two snapshots that agree document-by-document on `name`,
`category` and `options` (with `description`, `usage`, `syntax`,
`examples` arbitrary), any non-empty query selects exactly the
corresponding documents. -/
theorem search_ignores_description_fields (q : Str) (docs1 docs2 : List Doc)
    (hq : searchTextOf q ≠ [])
    (h : List.Forall₂ searchView docs1 docs2) :
    List.Forall₂ searchView (applyFilters q docs1) (applyFilters q docs2) := by
  have h1 := forall₂_filter (R := searchView)
    (f := exactMatch (searchTextOf q)) (g := exactMatch (searchTextOf q))
    (fun a b hab => exactMatch_congr (searchTextOf q) hab) h
  have h2 := forall₂_filter (R := searchView)
    (f := fun d => !exactMatch (searchTextOf q) d && tier2Match (searchTextOf q) d)
    (g := fun d => !exactMatch (searchTextOf q) d && tier2Match (searchTextOf q) d)
    (fun a b hab => by
      simp only [exactMatch_congr (searchTextOf q) hab,
        tier2Match_congr (searchTextOf q) hab]) h
  have hlen := h1.length_eq
  have hqe : (searchTextOf q).isEmpty = false := by simpa using hq
  simp only [applyFilters, classifyDocs_eq, hqe, Bool.false_eq_true, if_false]
  by_cases he : docs1.filter (exactMatch (searchTextOf q)) = []
  · have he2 : docs2.filter (exactMatch (searchTextOf q)) = [] := by
      rw [he] at hlen
      exact List.length_eq_zero.mp hlen.symm
    rw [he, he2]
    simp only [List.isEmpty_nil, Bool.not_true, Bool.false_eq_true, if_false]
    exact forall₂_take 50 h2
  · have he2 : docs2.filter (exactMatch (searchTextOf q)) ≠ [] := by
      intro hc
      rw [hc] at hlen
      exact he (List.length_eq_zero.mp hlen)
    have hb1 : (docs1.filter (exactMatch (searchTextOf q))).isEmpty = false :=
      Bool.eq_false_iff.mpr (fun hc => he (List.isEmpty_iff.mp hc))
    have hb2 : (docs2.filter (exactMatch (searchTextOf q))).isEmpty = false :=
      Bool.eq_false_iff.mpr (fun hc => he2 (List.isEmpty_iff.mp hc))
    simp only [hb1, hb2, Bool.not_false, if_true]
    exact h1

/-- Witness for C10 at the query `ls` over one-document snapshots that
differ in description, usage, syntax and examples. -/
theorem search_ignores_description_fields_witness :
    searchTextOf (toL "ls") ≠ [] ∧
    List.Forall₂ searchView [dView1] [dView2] ∧
    List.Forall₂ searchView (applyFilters (toL "ls") [dView1])
      (applyFilters (toL "ls") [dView2]) :=
  ⟨by decide, .cons ⟨rfl, rfl, rfl⟩ .nil,
    search_ignores_description_fields (toL "ls") [dView1] [dView2] (by decide)
      (.cons ⟨rfl, rfl, rfl⟩ .nil)⟩

/-! ### C4 — option-shape equivalence (corrected) -/

/-- C4 fails as stated: the list form spelled `flags`/`explanation` (the
claim's spelling) yields empty tier-2 search text — the code reads the
keys `flag`/`explains` — so its text differs from the mapping form's and
a tier-2 search for `verbose` misses the document. -/
theorem spec_shaped_options_not_equivalent :
    extractOptionsText dOptSpecList = [] ∧
    extractOptionsText dOptSpecList ≠ extractOptionsText dOptMapping ∧
    tier2Match (toL "verbose") dOptSpecList = false ∧
    applyFilters (toL "verbose") [dOptMapping, dOptSpecList] = [dOptMapping] :=
  ⟨by decide, by decide, by decide, by rfl⟩

/-- C4 amended: a record whose options field is the mapping
`{"-v": "verbose output"}` and one whose options field is
`[{"flag": ["-v"], "explains": "verbose output"}]` (the key spellings the
code reads) produce identical tier-2 search text, and both match a tier-2
search for `verbose`. -/
theorem flag_explains_options_equivalent :
    extractOptionsText dOptCodeList = extractOptionsText dOptMapping ∧
    tier2Match (toL "verbose") dOptCodeList = true ∧
    tier2Match (toL "verbose") dOptMapping = true ∧
    applyFilters (toL "verbose") [dOptMapping, dOptCodeList] =
      [dOptMapping, dOptCodeList] :=
  ⟨by decide, by decide, by decide, by rfl⟩

/-! ### C6 — missing-name fallback (corrected) -/

/-- C6 fails as stated against `src/app/yamlio.py`: the record from
`rsync.yml` with no `name` key is skipped outright — the loader yields no
document at all, rather than one named `rsync`. -/
theorem app_loader_skips_missing_name :
    appLoadCatDir rsyncCatDir = [] ∧
    appLoadAllCommands (.withDataDir (.ok [rsyncCatDir])) = .ok [] :=
  ⟨rfl, rfl⟩

/-- C6 amended: in the `src/tui/app.py` loader, a record whose `name` key
is missing or falsy gets the filename stem as its name. -/
theorem tui_loader_name_falls_back_to_stem (ps : List (Str × YVal))
    (cat stem src : Str)
    (h : pyTruthy ((lookupY ps (toL "name")).getD .vnull) = false) :
    (tuiAttachMeta ps cat stem src).name = some (.vstr stem) := by
  simp only [tuiAttachMeta]
  cases hl : lookupY ps (toL "name") with
  | none => rfl
  | some v =>
    rw [hl] at h
    simp only [Option.getD] at h
    simp [h]

/-- Witness for the amended C6: the nameless record of `rsync.yml`
normalizes, through the tui loader, to a document named `rsync`. -/
theorem tui_loader_name_falls_back_to_stem_witness :
    pyTruthy ((lookupY [(toL "description", .vstr (toL "sync files"))]
      (toL "name")).getD .vnull) = false ∧
    (tuiAttachMeta [(toL "description", .vstr (toL "sync files"))]
      (toL "Networking_Tools") (toL "rsync") (toL "rsync.yml")).name =
      some (.vstr (toL "rsync")) :=
  ⟨by decide,
    tui_loader_name_falls_back_to_stem _ _ _ _ (by decide)⟩

/-! ### C9 — load never raises (corrected) -/

/-- C9 fails as stated against `src/tui/app.py`: with no commands
directory anywhere, `_find_commands_base` raises `RuntimeError` out of
`load_all_commands` instead of returning an empty catalog. -/
theorem tui_loader_raises_without_base :
    tuiLoadAllCommands { base := none } =
      .error (toL "Could not locate a data/commands or commands directory.") :=
  rfl

/-- C9 amended: the `src/app/yamlio.py` loader never raises — for every
state of the source tree (missing root, unlistable root, unlistable
category, raising file read, malformed parse, malformed record) it
returns a plain, possibly empty, list of documents. -/
theorem app_loader_never_raises (fs : AppFS) :
    ∃ docs, appLoadAllCommands fs = .ok docs := by
  cases fs with
  | noDataDir => exact ⟨[], rfl⟩
  | withDataDir cats =>
    cases cats with
    | error e => exact ⟨[], rfl⟩
    | ok cds =>
      by_cases h : cds.isEmpty = true <;> simp [appLoadAllCommands, h]

/-! ### Order lemmas for the grouper -/

/-- Characters with equal code points are equal. -/
theorem charToNat_inj {a b : Char} (h : a.toNat = b.toNat) : a = b :=
  Char.ext (UInt32.toNat.inj h)

/-- The Python string order is total. -/
theorem lexLe_total : ∀ a b : Str, lexLe a b = true ∨ lexLe b a = true
  | [], _ => Or.inl rfl
  | _ :: _, [] => Or.inr rfl
  | a :: as, b :: bs => by
    simp only [lexLe]
    rcases Nat.lt_trichotomy a.toNat b.toNat with h | h | h
    · left
      rw [if_pos h]
    · rw [if_neg (by omega), if_neg (by omega), if_neg (by omega), if_neg (by omega)]
      exact lexLe_total as bs
    · right
      rw [if_pos h]

/-- The Python string order is transitive. -/
theorem lexLe_trans : ∀ {a b c : Str},
    lexLe a b = true → lexLe b c = true → lexLe a c = true
  | [], _, _, _, _ => rfl
  | _ :: _, [], _, h1, _ => by simp [lexLe] at h1
  | _ :: _, _ :: _, [], _, h2 => by simp [lexLe] at h2
  | a :: as, b :: bs, c :: cs, h1, h2 => by
    simp only [lexLe] at h1 h2 ⊢
    rcases Nat.lt_trichotomy a.toNat b.toNat with hab | hab | hab <;>
      rcases Nat.lt_trichotomy b.toNat c.toNat with hbc | hbc | hbc
    all_goals first
      | rw [if_pos (by omega)]
      | (rw [if_neg (by omega), if_pos (by omega)] at h1
         exact absurd h1 (by simp))
      | (rw [if_neg (by omega), if_pos (by omega)] at h2
         exact absurd h2 (by simp))
      | (rw [if_neg (by omega), if_neg (by omega)] at h1
         rw [if_neg (by omega), if_neg (by omega)] at h2
         rw [if_neg (by omega), if_neg (by omega)]
         exact lexLe_trans h1 h2)

/-- The Python string order is antisymmetric. -/
theorem lexLe_antisymm : ∀ {a b : Str},
    lexLe a b = true → lexLe b a = true → a = b
  | [], [], _, _ => rfl
  | [], _ :: _, _, h2 => by simp [lexLe] at h2
  | _ :: _, [], h1, _ => by simp [lexLe] at h1
  | a :: as, b :: bs, h1, h2 => by
    simp only [lexLe] at h1 h2
    rcases Nat.lt_trichotomy a.toNat b.toNat with hab | hab | hab
    · rw [if_neg (by omega), if_pos (by omega)] at h2
      exact absurd h2 (by simp)
    · rw [if_neg (by omega), if_neg (by omega)] at h1
      rw [if_neg (by omega), if_neg (by omega)] at h2
      rw [charToNat_inj hab, lexLe_antisymm h1 h2]
    · rw [if_neg (by omega), if_pos (by omega)] at h1
      exact absurd h1 (by simp)

instance : IsTotal Str keyLe := ⟨lexLe_total⟩

instance : IsTrans Str keyLe := ⟨fun _ _ _ => lexLe_trans⟩

instance : IsAntisymm Str keyLe := ⟨fun _ _ => lexLe_antisymm⟩

instance : IsTotal Doc nameLe := ⟨fun _ _ => lexLe_total _ _⟩

instance : IsTrans Doc nameLe := ⟨fun _ _ _ => lexLe_trans⟩

/-! ### Structure of the grouper's output -/

/-- The bucket keys are distinct. -/
theorem catKeys_nodup (docs : List Doc) : (catKeys docs).Nodup := by
  induction docs with
  | nil => exact List.nodup_nil
  | cons d rest ih =>
    simp only [catKeys]
    refine List.Nodup.cons (fun hmem => ?_) (ih.filter _)
    have := List.of_mem_filter hmem
    simp at this

/-- A string is a bucket key exactly when some document carries it as its
category key. -/
theorem mem_catKeys {docs : List Doc} {k : Str} :
    k ∈ catKeys docs ↔ ∃ d ∈ docs, catKeyStr d = k := by
  induction docs with
  | nil => simp [catKeys]
  | cons d rest ih =>
    simp only [catKeys, List.mem_cons, List.mem_filter, ih]
    constructor
    · rintro (rfl | ⟨⟨d2, hd2, rfl⟩, _⟩)
      · exact ⟨d, Or.inl rfl, rfl⟩
      · exact ⟨d2, Or.inr hd2, rfl⟩
    · rintro ⟨d2, hd2 | hd2, rfl⟩
      · subst hd2
        exact Or.inl rfl
      · by_cases hk : catKeyStr d2 = catKeyStr d
        · exact Or.inl hk
        · exact Or.inr ⟨⟨d2, hd2, rfl⟩, by simp [hk]⟩

/-- Pointwise-equal bucket contents give equal concatenations. -/
theorem flatMap_congr_mem {α β : Type} {f g : α → List β} :
    ∀ (ks : List α), (∀ k ∈ ks, f k = g k) → ks.flatMap f = ks.flatMap g
  | [], _ => rfl
  | k :: ks, h => by
    simp only [List.flatMap_cons]
    rw [h k (.head _), flatMap_congr_mem ks (fun k' hk' => h k' (.tail _ hk'))]

/-- Pointwise-permuted bucket contents give permuted concatenations. -/
theorem flatMap_perm_congr {α β : Type} {f g : α → List β} :
    ∀ (ks : List α), (∀ k ∈ ks, (f k).Perm (g k)) →
      (ks.flatMap f).Perm (ks.flatMap g)
  | [], _ => .nil
  | k :: ks, h => by
    simp only [List.flatMap_cons]
    exact (h k (.head _)).append
      (flatMap_perm_congr ks (fun k' hk' => h k' (.tail _ hk')))

/-- Concatenating the buckets of a distinct key cover permutes the
snapshot. -/
theorem flatMap_filter_perm :
    ∀ (ks : List Str) (docs : List Doc), ks.Nodup →
      (∀ d ∈ docs, catKeyStr d ∈ ks) →
      (ks.flatMap (fun k => docs.filter (fun d => catKeyStr d == k))).Perm docs
  | [], docs, _, hcov => by
    have hempty : docs = [] :=
      List.eq_nil_iff_forall_not_mem.mpr (fun d hd => by simpa using hcov d hd)
    simp [hempty]
  | k :: ks, docs, hnd, hcov => by
    simp only [List.flatMap_cons]
    have hnd' := (List.nodup_cons.mp hnd).2
    have hknot := (List.nodup_cons.mp hnd).1
    have hks : ∀ k' ∈ ks,
        docs.filter (fun d => catKeyStr d == k')
          = (docs.filter (fun d => !(catKeyStr d == k))).filter
              (fun d => catKeyStr d == k') := by
      intro k' hk'
      rw [List.filter_filter]
      refine List.filter_congr (fun d _ => ?_)
      by_cases h : catKeyStr d = k'
      · have hkk : k' ≠ k := fun he => hknot (he ▸ hk')
        simp [h, hkk]
      · simp [h]
    have hcov' : ∀ d ∈ docs.filter (fun d => !(catKeyStr d == k)), catKeyStr d ∈ ks := by
      intro d hd
      have hd1 := List.mem_filter.mp hd
      have := hcov d hd1.1
      rcases List.mem_cons.mp this with hk | hk
      · exact absurd hk (by simpa using hd1.2)
      · exact hk
    have IH := flatMap_filter_perm ks (docs.filter (fun d => !(catKeyStr d == k))) hnd' hcov'
    rw [flatMap_congr_mem ks hks]
    exact (List.Perm.append_left _ IH).trans (List.filter_append_perm _ docs)

/-- Unfolding of the grouper on a shape-clean snapshot. -/
theorem grouped_unfold (docs : List Doc) (h : docs.all groupable = true) :
    getAllCommandsByCategory docs =
      (List.insertionSort keyLe (catKeys docs)).flatMap
        (fun k => List.insertionSort nameLe
          (docs.filter (fun d => catKeyStr d == k))) := by
  rw [getAllCommandsByCategory, if_pos h]

/-- The sorted key list of a snapshot: distinct. -/
theorem sortedKeys_nodup (docs : List Doc) :
    (List.insertionSort keyLe (catKeys docs)).Nodup :=
  ((List.perm_insertionSort keyLe (catKeys docs)).nodup_iff).mpr (catKeys_nodup docs)

/-- The sorted key list covers every document's category key. -/
theorem mem_sortedKeys_of_mem {docs : List Doc} {d : Doc} (hd : d ∈ docs) :
    catKeyStr d ∈ List.insertionSort keyLe (catKeys docs) :=
  (List.perm_insertionSort keyLe (catKeys docs)).mem_iff.mpr
    (mem_catKeys.mpr ⟨d, hd, rfl⟩)

/-- Membership in a sorted bucket: the document is in the snapshot and
carries the bucket's key. -/
theorem mem_sorted_bucket {docs : List Doc} {k : Str} {d : Doc}
    (h : d ∈ List.insertionSort nameLe (docs.filter (fun d => catKeyStr d == k))) :
    d ∈ docs ∧ catKeyStr d = k := by
  have hm := (List.perm_insertionSort nameLe _).subset h
  have := List.mem_filter.mp hm
  exact ⟨this.1, by simpa using this.2⟩

/-- The grouper permutes a shape-clean snapshot. -/
theorem grouped_perm (docs : List Doc) (h : docs.all groupable = true) :
    (getAllCommandsByCategory docs).Perm docs := by
  rw [grouped_unfold docs h]
  have h1 := flatMap_perm_congr (f := fun k => List.insertionSort nameLe
      (docs.filter (fun d => catKeyStr d == k)))
    (g := fun k => docs.filter (fun d => catKeyStr d == k))
    (List.insertionSort keyLe (catKeys docs))
    (fun k _ => List.perm_insertionSort nameLe _)
  have h2 := flatMap_filter_perm (List.insertionSort keyLe (catKeys docs)) docs
    (sortedKeys_nodup docs) (fun d hd => mem_sortedKeys_of_mem hd)
  exact h1.trans h2

/-- Lifting pairwise in-bucket and cross-bucket facts to the
concatenation. -/
theorem pairwise_flatMap_buckets {R : Doc → Doc → Prop} {f : Str → List Doc} :
    ∀ (ks : List Str), (∀ k ∈ ks, (f k).Pairwise R) →
      ks.Pairwise (fun k k' => ∀ a ∈ f k, ∀ b ∈ f k', R a b) →
      (ks.flatMap f).Pairwise R
  | [], _, _ => .nil
  | k :: ks, hin, hcross => by
    simp only [List.flatMap_cons]
    rw [List.pairwise_append]
    have hc := List.pairwise_cons.mp hcross
    refine ⟨hin k (.head _),
      pairwise_flatMap_buckets ks (fun k' hk' => hin k' (.tail _ hk')) hc.2,
      fun a ha b hb => ?_⟩
    rcases List.mem_flatMap.mp hb with ⟨k', hk', hbk⟩
    exact hc.1 k' hk' a ha b hbk

/-! ### C5 — grouper ordering (corrected) -/

/-- C5 fails as stated: on categories `a` and `B`, the code's bucket keys
come out in code-point order `B, a`, not in the case-insensitive order
`a, B` the claim asserts (rendered by `claimOrderCI`). -/
theorem grouper_keys_not_case_insensitive :
    (getAllCommandsByCategory exC5docs).map catKeyStr = [toL "B", toL "a"] ∧
    (claimOrderCI exC5docs).map catKeyStr = [toL "a", toL "B"] ∧
    (getAllCommandsByCategory exC5docs).map catKeyStr ≠
      (claimOrderCI exC5docs).map catKeyStr :=
  ⟨by decide, by decide, by decide⟩

/-- C5 amended: on a snapshot whose category keys and names are strings,
the grouper's output is a permutation of the input in which categories
appear as contiguous buckets ordered by Python's case-SENSITIVE
(code-point) string order, and names inside each bucket are ordered
case-insensitively. -/
theorem grouper_sorted_casesensitive_keys (docs : List Doc)
    (h : docs.all groupable = true) :
    (getAllCommandsByCategory docs).Perm docs ∧
      (getAllCommandsByCategory docs).Pairwise (fun a b =>
        (catKeyStr a ≠ catKeyStr b ∧ lexLe (catKeyStr a) (catKeyStr b) = true) ∨
        (catKeyStr a = catKeyStr b ∧
          lexLe (sortNameKey a) (sortNameKey b) = true)) := by
  refine ⟨grouped_perm docs h, ?_⟩
  rw [grouped_unfold docs h]
  refine pairwise_flatMap_buckets _ (fun k _ => ?_) ?_
  · refine List.Pairwise.imp_of_mem (fun ha hb hr => ?_)
      (List.sorted_insertionSort nameLe _)
    exact Or.inr ⟨(mem_sorted_bucket ha).2.trans (mem_sorted_bucket hb).2.symm, hr⟩
  · have hp := (List.sorted_insertionSort keyLe (catKeys docs)).and
      (sortedKeys_nodup docs)
    refine hp.imp ?_
    rintro k k' ⟨hle, hne⟩ a ha b hb
    exact Or.inl ⟨by rw [(mem_sorted_bucket ha).2, (mem_sorted_bucket hb).2]; exact hne,
      by rw [(mem_sorted_bucket ha).2, (mem_sorted_bucket hb).2]; exact hle⟩

/-- Witness for the amended C5 on the two-category snapshot. -/
theorem grouper_sorted_casesensitive_keys_witness :
    exC5docs.all groupable = true ∧
    (getAllCommandsByCategory exC5docs).Perm exC5docs ∧
    (getAllCommandsByCategory exC5docs).Pairwise (fun a b =>
      (catKeyStr a ≠ catKeyStr b ∧ lexLe (catKeyStr a) (catKeyStr b) = true) ∨
      (catKeyStr a = catKeyStr b ∧
        lexLe (sortNameKey a) (sortNameKey b) = true)) := by
  have h := grouper_sorted_casesensitive_keys exC5docs (by decide)
  exact ⟨by decide, h.1, h.2⟩

/-! ### C8 — grouper idempotence -/

/-- Filtering distributes over bucket concatenation. -/
theorem filter_flatMap {α β : Type} (ks : List α) (f : α → List β) (p : β → Bool) :
    (ks.flatMap f).filter p = ks.flatMap (fun k => (f k).filter p) := by
  induction ks with
  | nil => rfl
  | cons k ks ih => simp only [List.flatMap_cons, List.filter_append, ih]

/-- A concatenation in which every bucket but one is empty is that
bucket. -/
theorem flatMap_eq_of_single {β : Type} {g : Str → List β} :
    ∀ (ks : List Str) (k : Str), k ∈ ks → ks.Nodup →
      (∀ k' ∈ ks, k' ≠ k → g k' = []) → ks.flatMap g = g k
  | [], k, hk, _, _ => absurd hk (List.not_mem_nil k)
  | a :: ks, k, hk, hnd, hz => by
    simp only [List.flatMap_cons]
    by_cases hak : a = k
    · subst hak
      have hnil : ks.flatMap g = [] :=
        List.flatMap_eq_nil_iff.mpr (fun k' hk' =>
          hz k' (.tail _ hk') (fun he => (List.nodup_cons.mp hnd).1 (he ▸ hk')))
      rw [hnil, List.append_nil]
    · have hk' : k ∈ ks := by
        rcases List.mem_cons.mp hk with h | h
        · exact absurd h.symm hak
        · exact h
      rw [hz a (.head _) hak, List.nil_append]
      exact flatMap_eq_of_single ks k hk' (List.nodup_cons.mp hnd).2
        (fun k2 h2 => hz k2 (.tail _ h2))

/-- Filtering a sorted bucket by a key keeps it whole or empties it. -/
theorem filter_sorted_bucket (docs : List Doc) (k k' : Str) :
    (List.insertionSort nameLe
        (docs.filter (fun d => catKeyStr d == k'))).filter
      (fun d => catKeyStr d == k)
      = if k' = k
        then List.insertionSort nameLe (docs.filter (fun d => catKeyStr d == k))
        else [] := by
  by_cases hkk : k' = k
  · subst hkk
    rw [if_pos rfl]
    refine List.filter_eq_self.mpr (fun d hd => ?_)
    simpa using (mem_sorted_bucket hd).2
  · rw [if_neg hkk]
    refine List.filter_eq_nil_iff.mpr (fun d hd => ?_)
    have := (mem_sorted_bucket hd).2
    simp [this, hkk]

/-- Permuted snapshots have permuted bucket-key lists. -/
theorem catKeys_perm_of_perm {l1 l2 : List Doc} (h : l1.Perm l2) :
    (catKeys l1).Perm (catKeys l2) := by
  refine (List.perm_ext_iff_of_nodup (catKeys_nodup _) (catKeys_nodup _)).mpr (fun k => ?_)
  simp only [mem_catKeys]
  constructor
  · rintro ⟨d, hd, rfl⟩
    exact ⟨d, h.subset hd, rfl⟩
  · rintro ⟨d, hd, rfl⟩
    exact ⟨d, h.symm.subset hd, rfl⟩

/-- Permuted snapshots have equal sorted key lists. -/
theorem sortedKeys_eq_of_perm {l1 l2 : List Doc} (h : l1.Perm l2) :
    List.insertionSort keyLe (catKeys l1) = List.insertionSort keyLe (catKeys l2) :=
  List.eq_of_perm_of_sorted
    ((List.perm_insertionSort _ _).trans
      ((catKeys_perm_of_perm h).trans (List.perm_insertionSort _ _).symm))
    (List.sorted_insertionSort _ _) (List.sorted_insertionSort _ _)

/-- C8: the grouper is idempotent — regrouping its own output changes
nothing, in both its bucket-sorting branch and its exception-fallback
branch. -/
theorem grouper_idempotent (docs : List Doc) :
    getAllCommandsByCategory (getAllCommandsByCategory docs) =
      getAllCommandsByCategory docs := by
  by_cases h : docs.all groupable = true
  · have hperm := grouped_perm docs h
    have hall2 : (getAllCommandsByCategory docs).all groupable = true := by
      rw [List.all_eq_true] at h ⊢
      exact fun d hd => h d (hperm.subset hd)
    rw [grouped_unfold _ hall2, sortedKeys_eq_of_perm hperm]
    rw [flatMap_congr_mem _ (fun k hk => ?_), ← grouped_unfold docs h]
    rw [grouped_unfold docs h, filter_flatMap]
    rw [flatMap_eq_of_single _ k hk (sortedKeys_nodup docs)
      (fun k' _ hk' => by rw [filter_sorted_bucket, if_neg hk'])]
    rw [filter_sorted_bucket, if_pos rfl]
    exact List.Sorted.insertionSort_eq (List.sorted_insertionSort nameLe _)
  · have hfb : getAllCommandsByCategory docs = docs := by
      rw [getAllCommandsByCategory, if_neg h]
    rw [hfb, hfb]

/-! ### C7 — corrupted-marker exclusion (corrected) -/

/-- Valid small code points round-trip through `Char.ofNat`. -/
theorem toNat_ofNat_small {n : Nat} (h : n < 55296) : (Char.ofNat n).toNat = n := by
  rw [Char.ofNat, dif_pos (Or.inl h)]
  rfl

/-- Lower-casing cannot produce or destroy a non-letter character. -/
theorem beq_lowerChar_of_nonLetter (x c : Char) (hx : nonLetterCode x) :
    (x == lowerChar c) = (x == c) := by
  unfold lowerChar
  by_cases h : 65 ≤ c.toNat ∧ c.toNat ≤ 90
  · rw [if_pos h]
    have hv : (Char.ofNat (c.toNat + 32)).toNat = c.toNat + 32 :=
      toNat_ofNat_small (by omega)
    have h1 : (x == Char.ofNat (c.toNat + 32)) = false :=
      beq_eq_false_iff_ne.mpr (fun he => by
        rw [he] at hx
        unfold nonLetterCode at hx
        rw [hv] at hx
        omega)
    have h2 : (x == c) = false :=
      beq_eq_false_iff_ne.mpr (fun he => by
        rw [he] at hx
        unfold nonLetterCode at hx
        omega)
    rw [h1, h2]
  · rw [if_neg h]

/-- Lower-casing the haystack does not affect prefix tests by a
non-letter needle. -/
theorem isPrefixL_lowerStr (needle : Str) (hn : ∀ x ∈ needle, nonLetterCode x) :
    ∀ (s : Str), isPrefixL needle (lowerStr s) = isPrefixL needle s := by
  induction needle with
  | nil => intro s; rfl
  | cons a as ih =>
    intro s
    cases s with
    | nil => rfl
    | cons c cs =>
      show (a == lowerChar c && isPrefixL as (lowerStr cs))
        = (a == c && isPrefixL as cs)
      rw [beq_lowerChar_of_nonLetter a c (hn a (.head _)),
        ih (fun x hx => hn x (.tail _ hx)) cs]

/-- Lower-casing the haystack does not affect substring tests by a
non-letter needle. -/
theorem isSubstrL_lowerStr (needle : Str) (hn : ∀ x ∈ needle, nonLetterCode x) :
    ∀ (s : Str), isSubstrL needle (lowerStr s) = isSubstrL needle s := by
  intro s
  induction s with
  | nil => rfl
  | cons c cs ih =>
    show (isPrefixL needle (lowerStr (c :: cs)) || isSubstrL needle (lowerStr cs))
      = (isPrefixL needle (c :: cs) || isSubstrL needle cs)
    rw [isPrefixL_lowerStr needle hn (c :: cs), ih]

/-- The marker test commutes with lower-casing. -/
theorem hasMarker_lowerStr (s : Str) : hasMarker (lowerStr s) = hasMarker s := by
  unfold hasMarker
  rw [isSubstrL_lowerStr marker1 (by decide) s, isSubstrL_lowerStr marker2 (by decide) s]

/-- Every part a string contributes to the search text is marker-free. -/
theorem cleanPart_marker_free {s p : Str} (h : p ∈ cleanPart s) :
    hasMarker p = false := by
  unfold cleanPart at h
  split at h
  · rename_i hcond
    rcases List.mem_singleton.mp h with rfl
    rw [hasMarker_lowerStr]
    simp only [Bool.and_eq_true, Bool.not_eq_true'] at hcond
    exact hcond.2
  · exact absurd h (List.not_mem_nil p)

/-- Every part a flag value contributes is marker-free. -/
theorem flagParts_marker_free {f : YVal} {p : Str} (h : p ∈ flagParts f) :
    hasMarker p = false := by
  unfold flagParts at h
  split at h
  · rcases List.mem_flatMap.mp h with ⟨x, _, hx⟩
    exact cleanPart_marker_free hx
  · exact cleanPart_marker_free h

/-- Every part an options-list entry contributes is marker-free. -/
theorem optEntryParts_marker_free {o : YVal} {p : Str} (h : p ∈ optEntryParts o) :
    hasMarker p = false := by
  unfold optEntryParts at h
  split at h
  · rcases List.mem_append.mp h with hp | hp
    · exact flagParts_marker_free hp
    · split at hp
      · exact cleanPart_marker_free hp
      · exact absurd hp (List.not_mem_nil p)
  · exact cleanPart_marker_free h
  · exact cleanPart_marker_free h

/-- Every part an options-dict pair contributes is marker-free. -/
theorem dictPairParts_marker_free {pr : Str × YVal} {p : Str}
    (h : p ∈ dictPairParts pr) : hasMarker p = false := by
  unfold dictPairParts at h
  rcases List.mem_append.mp h with hp | hp
  · exact cleanPart_marker_free hp
  · split at hp
    · exact cleanPart_marker_free hp
    · exact absurd hp (List.not_mem_nil p)

/-- C7 amended: every part of the tier-2 search text built by
`_extract_options_text` is free of the corrupted-serialization marker —
corrupted entries never reach the searchable text.  (The display path is
another matter: see the counterexample.) -/
theorem search_text_parts_marker_free (options : YVal) (p : Str)
    (h : p ∈ optionTextParts options) : hasMarker p = false := by
  unfold optionTextParts at h
  split at h
  · exact absurd h (List.not_mem_nil p)
  · split at h
    · rcases List.mem_flatMap.mp h with ⟨o, _, ho⟩
      exact optEntryParts_marker_free ho
    · rcases List.mem_flatMap.mp h with ⟨pr, _, hpr⟩
      exact dictPairParts_marker_free hpr
    · exact cleanPart_marker_free h

/-- Witness for the amended C7: the `-v` part contributed by the clean
mapping-shaped options value is marker-free. -/
theorem search_text_parts_marker_free_witness :
    toL "-v" ∈ optionTextParts optionsMappingV ∧
    hasMarker (toL "-v") = false :=
  ⟨by decide, search_text_parts_marker_free optionsMappingV (toL "-v") (by decide)⟩

/-- C7 fails as stated: an option entry corrupted in both fields is
dropped from the search text, but `_format_options` still renders it —
the marker appears verbatim in the details pane. -/
theorem marker_entry_still_displayed :
    extractOptionsText { options := some corruptedOptionsV } = [] ∧
    isSubstrL marker2 (formatOptions corruptedOptionsV) = true ∧
    isSubstrL corruptedFlag (formatOptions corruptedOptionsV) = true :=
  ⟨by decide, by decide, by decide⟩

end LCL
